import Mathlib

/-!
NoobFarm2 web front end: quote listing and pagination.

A shallow embedding of `internal/web/web.go` (package `web`): the query
parameter parser `parseSortConfig`, the page arithmetic and navigation flags
of `HomePage`, the link builder `navLink`, and the newline rewrites of
`AddQuote` and `HomePage`.

Modelling conventions.

* A Go `string` is a sequence of bytes; a byte is a natural number
  (`GoString = List Nat`).  Literals of the source are written with `ascii`.
* Go's `int` is taken to be 64 bits wide (the size on amd64 / arm64); every
  arithmetic operation on it is written with an explicit wrap-around
  (`wrapInt`).  `int64` to `int` conversions are then the identity.
* A run-time panic (index out of range, integer division by zero) is an
  `Except.error`.
* A `url.Values` is a function from keys to optional value lists.  The
  mappings `r.URL.Query()` produces hold at least one value under every key
  present (`WellFormed`, proved of `ParseQuery` in `ParseQuery_wellFormed`);
  on any other mapping the index `params[k][0]` panics.
* The standard-library functions the source calls (`strconv.ParseInt`,
  `fmt.Sprintf` with `%d` / `%s`, `fmt.Fprintf` without operands,
  `strings.Replace`, `url.ParseQuery`) are modelled after their Go
  definitions.
-/

namespace NoobFarm

/-! ## Strings -/

/-- A Go string: a finite sequence of bytes. -/
abbrev GoString := List Nat

/-- The bytes of an ASCII literal of the source. -/
def ascii (s : String) : GoString := s.toList.map Char.toNat

/-! ## Machine integers -/

/-- Width of Go's `int` on the modelled platform. -/
def intSize : Nat := 64

/-- Two's-complement wrap-around of a mathematical integer to `bits` bits. -/
def wrapInt (bits : Nat) (x : Int) : Int :=
  (x + 2 ^ (bits - 1)) % 2 ^ bits - 2 ^ (bits - 1)

/-- Run-time panics the modelled code can raise. -/
inductive Panic where
  | indexOutOfRange
  | divideByZero
  deriving DecidableEq, Repr

/-- Go's `a / b` on `int`: panics when `b = 0`, truncates toward zero, wraps. -/
def goDiv (a b : Int) : Except Panic Int :=
  if b = 0 then .error .divideByZero else .ok (wrapInt intSize (Int.tdiv a b))

/-! ## strconv.ParseInt -/

/-- The two error kinds of `strconv`: `invalid` is `ErrSyntax`, `outOfRange`
is `ErrRange`. -/
inductive NumError where
  | invalid
  | outOfRange
  deriving DecidableEq, Repr

/-- Value of a digit byte in `ParseUint`: `0`-`9`, then letters of either case
from 10 on; `none` for any other byte. -/
def digitVal (c : Nat) : Option Nat :=
  if 48 ≤ c ∧ c ≤ 57 then some (c - 48)
  else if 97 ≤ c ∧ c ≤ 122 then some (c - 97 + 10)
  else if 65 ≤ c ∧ c ≤ 90 then some (c - 65 + 10)
  else none

/-- The digit loop of `strconv.ParseUint` for an explicit base in `2..36`;
`n` is the `uint64` accumulator.  It stops at the first offending byte. -/
def parseUintLoop (base bitSize : Nat) : GoString → Nat → Nat × Option NumError
  | [], n => (n, none)
  | c :: cs, n =>
    match digitVal c with
    | none => (0, some .invalid)
    | some d =>
      if base ≤ d then (0, some .invalid)
      else if (2 ^ 64 - 1) / base + 1 ≤ n then (2 ^ bitSize - 1, some .outOfRange)
      else
        let m := n * base
        let n1 := (m + d) % 2 ^ 64
        if n1 < m ∨ 2 ^ bitSize - 1 < n1 then (2 ^ bitSize - 1, some .outOfRange)
        else parseUintLoop base bitSize cs n1

/-- Go's `strconv.ParseUint(s, base, bitSize)` for `2 ≤ base ≤ 36` and
`1 ≤ bitSize ≤ 64`. -/
def ParseUint (s : GoString) (base bitSize : Nat) : Nat × Option NumError :=
  if s = [] then (0, some .invalid) else parseUintLoop base bitSize s 0

/-- The range check and sign application at the end of `strconv.ParseInt`. -/
def parseIntFinish (neg : Bool) (bitSize : Nat) (r : Nat × Option NumError) :
    Int × Option NumError :=
  match r with
  | (_, some .invalid) => (0, some .invalid)
  | (un, _) =>
    let cutoff : Nat := 2 ^ (bitSize - 1)
    if neg = false ∧ cutoff ≤ un then ((cutoff : Int) - 1, some .outOfRange)
    else if neg = true ∧ cutoff < un then (-(cutoff : Int), some .outOfRange)
    else (if neg then -(un : Int) else (un : Int), none)

/-- Go's `strconv.ParseInt(s, base, bitSize)` for `2 ≤ base ≤ 36` and
`1 ≤ bitSize ≤ 64`: the `int64` result and the error (`none` is `nil`). -/
def ParseInt (s : GoString) (base bitSize : Nat) : Int × Option NumError :=
  match s with
  | [] => (0, some .invalid)
  | c :: cs =>
    if c = 43 then parseIntFinish false bitSize (ParseUint cs base bitSize)
    else if c = 45 then parseIntFinish true bitSize (ParseUint cs base bitSize)
    else parseIntFinish false bitSize (ParseUint (c :: cs) base bitSize)

/-! ## Data model -/

/-- Modelled from the spec: the declaration of `qdb.SortConfig` is not among
the sources; these are the fields `web.go` reads and writes, with the types
its assignments force (`bool` flags, `int` page size and offset). -/
structure SortConfig where
  ByRating : Bool
  ByDate : Bool
  Descending : Bool
  Number : Int
  Offset : Int
  deriving DecidableEq, Repr

set_option linter.dupNamespace false in
/-- Modelled from the spec: the declaration of `qdb.Quote` is not among the
sources; `AddQuote` fills the text, the submission time and the origin. -/
structure Quote where
  Quote : GoString
  Submitted : Nat
  SubmittedIP : GoString
  deriving DecidableEq, Repr

/-- The view model handed to the template (`PageConfig` of the source). -/
structure PageConfig where
  Page : Int
  Pages : Int
  Quotes : List Quote
  DBSize : Int
  ModerationQueueSize : Int
  NextButton : Bool
  PrevButton : Bool
  NextLink : GoString
  PrevLink : GoString
  SortConfig : SortConfig
  deriving DecidableEq, Repr

/-- Modelled from the spec: the `qdb.Backend` interface is not among the
sources; these are the operations `HomePage` calls.  `GetQuote` answers
`none` when it returns an error. -/
structure Backend where
  Size : Int
  ModerationQueueSize : Int
  GetQuote : Int → Option Quote
  GetBulkQuotes : SortConfig → List Quote × Int

/-- Go's `url.Values` (`map[string][]string`): `none` is the nil slice a
missing key reads as. -/
abbrev Values := GoString → Option (List GoString)

/-- Go's slice index `vs[0]`. -/
def index0 (vs : List GoString) : Except Panic GoString :=
  match vs with
  | [] => .error .indexOutOfRange
  | v :: _ => .ok v

/-! ## parseSortConfig -/

/-- The `count` block of `parseSortConfig`. -/
def parseCount (params : Values) (req : SortConfig) : Except Panic SortConfig :=
  match params (ascii "count") with
  | none => .ok req
  | some vs => do
    let v ← index0 vs
    let r := ParseInt v 10 32
    let req := if r.2.isSome then { req with Number := 10 } else req
    pure { req with Number := wrapInt intSize r.1 }

/-- The `page` block of `parseSortConfig`. -/
def parsePage (params : Values) (req : SortConfig) : Except Panic SortConfig :=
  match params (ascii "page") with
  | none => .ok req
  | some vs => do
    let v ← index0 vs
    let r := ParseInt v 10 32
    let req := if r.2.isSome then { req with Offset := 0 } else req
    let req := { req with
      Offset := wrapInt intSize (wrapInt intSize (wrapInt 64 (r.1 - 1)) * req.Number) }
    pure (if req.Offset < 0 then { req with Offset := 0 } else req)

/-- The `sort_by` block of `parseSortConfig`. -/
def parseSortBy (params : Values) (req : SortConfig) : Except Panic SortConfig :=
  match params (ascii "sort_by") with
  | none => .ok req
  | some vs => do
    let v ← index0 vs
    pure (if v = ascii "rating" then { req with ByRating := true, ByDate := false } else req)

/-- The `sort_order` block of `parseSortConfig`. -/
def parseSortOrder (params : Values) (req : SortConfig) : Except Panic SortConfig :=
  match params (ascii "sort_order") with
  | none => .ok req
  | some vs => do
    let v ← index0 vs
    pure (if v = ascii "down" then { req with Descending := true }
      else { req with Descending := false })

/-- The function `parseSortConfig` of `web.go`: the four blocks in source
order, starting from the literal `{ByDate: true, Descending: true, Number: 10}`. -/
def parseSortConfig (params : Values) : Except Panic SortConfig := do
  let req : SortConfig :=
    { ByRating := false, ByDate := true, Descending := true, Number := 10, Offset := 0 }
  let req ← parseCount params req
  let req ← parsePage params req
  let req ← parseSortBy params req
  parseSortOrder params req

/-! ## fmt.Sprintf and navLink -/

/-- Decimal digits of `u`, most significant first, pushed in front of `acc`
(the loop of `strconv.formatBits` for base 10); `fuel` bounds the number of
digits still to be written. -/
def formatUintAux : Nat → Nat → GoString → GoString
  | 0, _, acc => acc
  | fuel + 1, u, acc =>
    if u < 10 then (48 + u) :: acc
    else formatUintAux fuel (u / 10) ((48 + u % 10) :: acc)

/-- Decimal rendering of a `uint64`, which has at most 20 digits. -/
def formatUint (u : Nat) : GoString := formatUintAux 20 u []

/-- The verb `%d` of `fmt.Sprintf` on an `int` (the same text as
`strconv.FormatInt(i, 10)`). -/
def FormatInt (i : Int) : GoString :=
  if i < 0 then 45 :: formatUint (-i).toNat else formatUint i.toNat

/-- The function `navLink` of `web.go`. -/
def navLink (p : PageConfig) (offset : Int) : GoString :=
  let direction := if p.SortConfig.Descending then ascii "down" else ascii "up"
  let method := if p.SortConfig.ByRating then ascii "rating" else ascii "date"
  ascii "/?count=" ++ FormatInt p.SortConfig.Number
    ++ ascii "&page=" ++ FormatInt (wrapInt intSize (p.Page + offset))
    ++ ascii "&sort_by=" ++ method
    ++ ascii "&sort_order=" ++ direction

/-! ## HomePage -/

/-- The expression `req.Offset/req.Number + 1` of `HomePage`: the current
page number, or a panic when the page size is zero. -/
def currentPage (req : SortConfig) : Except Panic Int := do
  let d ← goDiv req.Offset req.Number
  pure (wrapInt intSize (d + 1))

/-- The first half of `HomePage`: the `PageConfig` literal, then the
single-quote branch when `id` is present and the list branch otherwise. -/
def homePageConfig (db : Backend) (params : Values) : Except Panic PageConfig :=
  let p : PageConfig :=
    { Page := 0, Pages := 0, Quotes := [], DBSize := db.Size,
      ModerationQueueSize := db.ModerationQueueSize,
      NextButton := false, PrevButton := false, NextLink := [], PrevLink := [],
      SortConfig :=
        { ByRating := false, ByDate := false, Descending := false, Number := 0, Offset := 0 } }
  match params (ascii "id") with
  | some vs => do
    let v ← index0 vs
    let r := ParseInt v 10 32
    let n := if r.2.isSome then -1 else r.1
    match db.GetQuote (wrapInt intSize n) with
    | none => pure { p with Quotes := [] }
    | some q => pure { p with Quotes := [q] }
  | none => do
    let req ← parseSortConfig params
    let r := db.GetBulkQuotes req
    let page ← currentPage req
    pure { p with Quotes := r.1, Pages := r.2, Page := page, SortConfig := req }

/-- The second half of `HomePage`: the two button flags, then the links of
the buttons that are set. -/
def setNavigation (p : PageConfig) : PageConfig :=
  let p := { p with PrevButton := decide (p.Page > 1) }
  let p := { p with NextButton := decide (p.Pages > 0) && decide (p.Page ≠ p.Pages) }
  let p := if p.PrevButton then { p with PrevLink := navLink p (-1) } else p
  if p.NextButton then { p with NextLink := navLink p 1 } else p

/-- The function `HomePage` of `web.go`, up to the `PageConfig` it hands to
the template. -/
def HomePage (db : Backend) (params : Values) : Except Panic PageConfig := do
  let p ← homePageConfig db params
  pure (setNavigation p)

/-! ## strings.Replace -/

/-- Go's `strings.HasPrefix(s, pre)`. -/
def startsWith : GoString → GoString → Bool
  | _, [] => true
  | [], _ :: _ => false
  | c :: cs, d :: ds => decide (c = d) && startsWith cs ds

/-- Go's `strings.Contains(s, sub)`. -/
def Contains : GoString → GoString → Bool
  | [], sub => startsWith [] sub
  | c :: cs, sub => startsWith (c :: cs) sub || Contains cs sub

/-- Left-to-right scan of `strings.Replace`: `skip` counts the bytes of the
occurrence of `old` just replaced that are still to be passed over. -/
def replaceFrom (old new : GoString) : Nat → GoString → GoString
  | _, [] => []
  | skip + 1, _ :: cs => replaceFrom old new skip cs
  | 0, c :: cs =>
    if startsWith (c :: cs) old then new ++ replaceFrom old new (old.length - 1) cs
    else c :: replaceFrom old new 0 cs

/-- Go's `strings.Replace(s, old, new, -1)` for a non-empty `old`: every
non-overlapping occurrence of `old`, leftmost first, becomes `new`.  (The
source never passes an empty `old`; that case is not modelled.) -/
def ReplaceAll (s old new : GoString) : GoString := replaceFrom old new 0 s

/-- The two-byte marker, backslash then `n`, that stands for a line break in
a stored quote. -/
def marker : GoString := [92, 110]

/-- Carriage return, line feed. -/
def crlf : GoString := [13, 10]

/-- The markup `<br />`. -/
def brTag : GoString := ascii "<br />"

/-- The newline normalisation of `AddQuote`: `strings.Replace(q, "\r\n", "\\n", -1)`. -/
def AddQuote_normalize (webQuote : GoString) : GoString := ReplaceAll webQuote crlf marker

/-- Line 118 of `HomePage`, on the text `page` the template produced:
`strings.Replace(page, "\\n", "<br />", -1)`. -/
def HomePage_replaceMarker (page : GoString) : GoString := ReplaceAll page marker brTag

/-- A byte that `fmt` reads as a verb directly after `%`: an ASCII byte that
is not a flag (`#`, `0`, `+`, `-`, space), a digit, `*`, `.` or `[`. -/
def plainVerb (v : Nat) : Bool :=
  decide (v < 128 ∧ v ≠ 35 ∧ v ≠ 43 ∧ v ≠ 45 ∧ v ≠ 32 ∧ v ≠ 42 ∧ v ≠ 46 ∧ v ≠ 91 ∧
    ¬ (48 ≤ v ∧ v ≤ 57))

/-- The text `fmt.Fprintf(w, format)` writes when it is called with no
operands, as on line 119 of `HomePage`: bytes other than `%` are copied, `%%`
writes one `%`, a `%` that ends the format writes `%!(NOVERB)`, and a `%`
directly followed by a verb byte `v` writes `%!v(MISSING)`.  The answer is
`none` on a format outside this fragment (a `%` followed by a flag, a width,
a precision, an argument index or a non-ASCII byte). -/
def Fprintf_noOperands : GoString → Option GoString
  | [] => some []
  | c :: rest =>
    if c = 37 then
      match rest with
      | [] => some (ascii "%!(NOVERB)")
      | v :: rest2 =>
        if v = 37 then (Fprintf_noOperands rest2).map (fun t => 37 :: t)
        else if plainVerb v then
          (Fprintf_noOperands rest2).map (fun t => ascii "%!" ++ v :: (ascii "(MISSING)" ++ t))
        else none
    else (Fprintf_noOperands rest).map (fun t => c :: t)

/-- Lines 118-119 of `HomePage`: the template output `page` has its markers
replaced and the result is passed to `fmt.Fprintf` as the format string; the
value is the text sent to the client. -/
def HomePage_render (page : GoString) : Option GoString :=
  Fprintf_noOperands (HomePage_replaceMarker page)

/-- The spec's words for the displayed form of a quote, written without the
library model: `s` with every CRLF replaced by `<br />` and nothing else
changed. -/
def spec_crlfToBr : GoString → GoString
  | [] => []
  | [c] => [c]
  | c :: d :: rest =>
    if c = 13 ∧ d = 10 then ascii "<br />" ++ spec_crlfToBr rest
    else c :: spec_crlfToBr (d :: rest)

/-! ## url.ParseQuery -/

/-- Go's `strings.Cut(s, sep)` for a one-byte separator: the text before the
first `sep` and the text after it (all of `s` and nothing when there is none). -/
def cutByte (sep : Nat) : GoString → GoString × GoString
  | [] => ([], [])
  | c :: cs =>
    if c = sep then ([], cs)
    else match cutByte sep cs with
      | (before, after) => (c :: before, after)

/-- The pieces of `s` between occurrences of `sep`. -/
def splitByte (sep : Nat) : GoString → List GoString
  | [] => [[]]
  | c :: cs =>
    if c = sep then [] :: splitByte sep cs
    else match splitByte sep cs with
      | [] => [[c]]
      | h :: t => (c :: h) :: t

/-- Hexadecimal digit test of `net/url`. -/
def ishex (c : Nat) : Bool :=
  decide ((48 ≤ c ∧ c ≤ 57) ∨ (97 ≤ c ∧ c ≤ 102) ∨ (65 ≤ c ∧ c ≤ 70))

/-- Value of a hexadecimal digit (`net/url`). -/
def unhex (c : Nat) : Nat :=
  if 48 ≤ c ∧ c ≤ 57 then c - 48
  else if 97 ≤ c ∧ c ≤ 102 then c - 97 + 10
  else if 65 ≤ c ∧ c ≤ 70 then c - 65 + 10
  else 0

/-- Go's `url.QueryUnescape`: `%XX` becomes the byte `XX`, `+` becomes a
space; `none` when a `%` is not followed by two hexadecimal digits. -/
def QueryUnescape : GoString → Option GoString
  | [] => some []
  | c :: rest =>
    if c = 37 then
      match rest with
      | h1 :: h2 :: rest2 =>
        if ishex h1 ∧ ishex h2 then
          (QueryUnescape rest2).map (fun t => (unhex h1 * 16 + unhex h2) :: t)
        else none
      | _ => none
    else (QueryUnescape rest).map (fun t => (if c = 43 then 32 else c) :: t)

/-- One round of the loop of `url.ParseQuery` on the piece `key` cut off at
an ampersand: pieces holding a semicolon, empty pieces and pieces with a bad
escape are passed over; otherwise the value is appended under the key. -/
def parseQueryStep (m : Values) (key : GoString) : Values :=
  if 59 ∈ key then m
  else if key = [] then m
  else
    match cutByte 61 key with
    | (k0, v0) =>
      match QueryUnescape k0, QueryUnescape v0 with
      | some k, some v => fun x => if x = k then some ((m x).getD [] ++ [v]) else m x
      | _, _ => m

/-- Go's `url.ParseQuery` (the mapping it builds; its error is dropped, as
`URL.Query` does): the query is cut at every ampersand and the pieces are
handled in order.  A piece with a semicolon is rejected, as in Go 1.17 and
later; the links `navLink` builds hold none. -/
def ParseQuery (query : GoString) : Values :=
  (splitByte 38 query).foldl parseQueryStep (fun _ => none)

/-- The `r.URL.Query()` of a request for the relative link `link`: the text
after the first question mark, parsed as a query. -/
def linkQuery (link : GoString) : Values := ParseQuery (cutByte 63 link).2

/-- A `url.Values` given by a list of keys with their values (first entry of
a key wins), for concrete inputs. -/
def mkValues (l : List (String × List String)) : Values := fun k =>
  (l.find? (fun p => ascii p.1 = k)).map (fun p => p.2.map ascii)

/-! ## Well-formed parameter mappings -/

/-- Every key present in a `url.Values` built by `url.ParseQuery` holds at
least one value. -/
def WellFormed (params : Values) : Prop := ∀ k, params k ≠ some []

/-- The first value of a key, when the key is present. -/
def firstValue (params : Values) (k : GoString) : Option GoString :=
  match params k with
  | some (v :: _) => some v
  | _ => none

/-- The page size `parseSortConfig` computes. -/
def numberOf (params : Values) : Int :=
  match firstValue params (ascii "count") with
  | some v => wrapInt intSize (ParseInt v 10 32).1
  | none => 10

/-- The offset `parseSortConfig` computes. -/
def offsetOf (params : Values) : Int :=
  match firstValue params (ascii "page") with
  | some v =>
    let o := wrapInt intSize (wrapInt intSize (wrapInt 64 ((ParseInt v 10 32).1 - 1))
      * numberOf params)
    if o < 0 then 0 else o
  | none => 0

/-- Whether `parseSortConfig` selects sorting by rating. -/
def byRatingOf (params : Values) : Bool :=
  match firstValue params (ascii "sort_by") with
  | some v => decide (v = ascii "rating")
  | none => false

/-- The sort direction `parseSortConfig` computes. -/
def descendingOf (params : Values) : Bool :=
  match firstValue params (ascii "sort_order") with
  | some v => decide (v = ascii "down")
  | none => true

/-- The mapping a navigation link parses to: one value under each of the
four browsing keys. -/
def linkValues (a b c d : GoString) : Values := fun x =>
  if x = ascii "sort_order" then some [d]
  else if x = ascii "sort_by" then some [c]
  else if x = ascii "page" then some [b]
  else if x = ascii "count" then some [a]
  else none

/-- Bytes that `url.ParseQuery` neither splits at nor unescapes. -/
def PlainBytes (s : GoString) : Prop :=
  ∀ c ∈ s, c ≠ 38 ∧ c ≠ 61 ∧ c ≠ 59 ∧ c ≠ 37 ∧ c ≠ 43

/-! ## The parser on well-formed mappings -/

theorem firstValue_none_iff {params : Values} (hwf : WellFormed params) (k : GoString) :
    firstValue params k = none ↔ params k = none := by
  unfold firstValue
  rcases h : params k with _ | ⟨_ | ⟨v, rest⟩⟩
  · simp
  · exact absurd h (hwf k)
  · simp

theorem parseCount_eq (params : Values) (req : SortConfig)
    (h : params (ascii "count") ≠ some []) :
    parseCount params req = .ok { req with
      Number := match firstValue params (ascii "count") with
        | some v => wrapInt intSize (ParseInt v 10 32).1
        | none => req.Number } := by
  unfold parseCount firstValue
  rcases e : params (ascii "count") with _ | ⟨_ | ⟨v, r⟩⟩
  · rfl
  · exact absurd e h
  · simp only [bind, Except.bind, pure, Except.pure, index0]
    split_ifs <;> rfl

theorem parsePage_eq (params : Values) (req : SortConfig)
    (h : params (ascii "page") ≠ some []) :
    parsePage params req = .ok { req with
      Offset := match firstValue params (ascii "page") with
        | some v =>
          let o := wrapInt intSize (wrapInt intSize (wrapInt 64 ((ParseInt v 10 32).1 - 1))
            * req.Number)
          if o < 0 then 0 else o
        | none => req.Offset } := by
  unfold parsePage firstValue
  rcases e : params (ascii "page") with _ | ⟨_ | ⟨v, r⟩⟩
  · rfl
  · exact absurd e h
  · simp only [bind, Except.bind, pure, Except.pure, index0]
    split_ifs <;> simp_all

theorem parseSortBy_eq (params : Values) (req : SortConfig)
    (h : params (ascii "sort_by") ≠ some []) :
    parseSortBy params req = .ok
      (match firstValue params (ascii "sort_by") with
        | some v => if v = ascii "rating" then { req with ByRating := true, ByDate := false }
            else req
        | none => req) := by
  unfold parseSortBy firstValue
  rcases e : params (ascii "sort_by") with _ | ⟨_ | ⟨v, r⟩⟩
  · rfl
  · exact absurd e h
  · simp only [bind, Except.bind, pure, Except.pure, index0]

theorem parseSortOrder_eq (params : Values) (req : SortConfig)
    (h : params (ascii "sort_order") ≠ some []) :
    parseSortOrder params req = .ok { req with
      Descending := match firstValue params (ascii "sort_order") with
        | some v => decide (v = ascii "down")
        | none => req.Descending } := by
  unfold parseSortOrder firstValue
  rcases e : params (ascii "sort_order") with _ | ⟨_ | ⟨v, r⟩⟩
  · rfl
  · exact absurd e h
  · simp only [bind, Except.bind, pure, Except.pure, index0]
    split_ifs <;> simp_all

theorem parseSortConfig_eq {params : Values} (hwf : WellFormed params) :
    parseSortConfig params = .ok
      { ByRating := byRatingOf params, ByDate := !(byRatingOf params),
        Descending := descendingOf params, Number := numberOf params,
        Offset := offsetOf params } := by
  unfold parseSortConfig
  simp only [parseCount_eq _ _ (hwf _), parsePage_eq _ _ (hwf _), parseSortBy_eq _ _ (hwf _),
    parseSortOrder_eq _ _ (hwf _), bind, Except.bind]
  unfold byRatingOf descendingOf offsetOf numberOf
  rcases firstValue params (ascii "count") with _ | v1 <;>
  rcases firstValue params (ascii "page") with _ | v2 <;>
  rcases firstValue params (ascii "sort_by") with _ | v3 <;>
  rcases firstValue params (ascii "sort_order") with _ | v4 <;>
  simp <;> split_ifs <;> simp_all



/-! ## Arithmetic facts -/

theorem wrapInt64_eq (x : Int) (h1 : -9223372036854775808 ≤ x)
    (h2 : x < 9223372036854775808) : wrapInt 64 x = x := by
  unfold wrapInt
  norm_num
  omega

theorem parseIntFinish_range (neg : Bool) (r : Nat × Option NumError) :
    -2147483648 ≤ (parseIntFinish neg 32 r).1 ∧ (parseIntFinish neg 32 r).1 ≤ 2147483647 := by
  unfold parseIntFinish
  split
  · simp
  · simp only [Nat.add_one_sub_one, Nat.reducePow]
    split_ifs <;> cases neg <;> simp_all <;> omega

theorem ParseInt_range (s : GoString) :
    -2147483648 ≤ (ParseInt s 10 32).1 ∧ (ParseInt s 10 32).1 ≤ 2147483647 := by
  unfold ParseInt
  split
  · simp
  · split_ifs <;> exact parseIntFinish_range _ _

theorem mul_bounds (a b : Int) (ha1 : -2147483649 ≤ a) (ha2 : a ≤ 2147483647)
    (hb1 : -2147483648 ≤ b) (hb2 : b ≤ 2147483647) :
    -4611686020574871552 ≤ a * b ∧ a * b ≤ 4611686020574871552 := by
  have h : |a * b| ≤ 2147483649 * 2147483648 := by
    rw [abs_mul]
    exact mul_le_mul (abs_le.mpr ⟨by omega, by omega⟩) (abs_le.mpr ⟨by omega, by omega⟩)
      (abs_nonneg _) (by norm_num)
  have h2 := abs_le.mp h
  constructor <;> omega

theorem numberOf_range (params : Values) :
    -2147483648 ≤ numberOf params ∧ numberOf params ≤ 2147483647 := by
  unfold numberOf
  split
  · rename_i v _
    have h := ParseInt_range v
    rw [intSize, wrapInt64_eq _ (by omega) (by omega)]
    exact h
  · omega

theorem numberOf_parsed {params : Values} {v : GoString}
    (h : firstValue params (ascii "count") = some v) :
    numberOf params = (ParseInt v 10 32).1 := by
  unfold numberOf
  rw [h]
  have hr := ParseInt_range v
  simp only [intSize]
  exact wrapInt64_eq _ (by omega) (by omega)

theorem offsetOf_parsed {params : Values} {v : GoString}
    (h : firstValue params (ascii "page") = some v) :
    offsetOf params = max 0 (((ParseInt v 10 32).1 - 1) * numberOf params) := by
  unfold offsetOf
  rw [h]
  have hr := ParseInt_range v
  have hn := numberOf_range params
  have hm := mul_bounds ((ParseInt v 10 32).1 - 1) (numberOf params) (by omega) (by omega)
    hn.1 hn.2
  simp only [intSize]
  have hw := wrapInt64_eq ((ParseInt v 10 32).1 - 1) (by omega) (by omega)
  rw [hw, hw, wrapInt64_eq _ (by omega) (by omega)]
  split_ifs with hlt
  · rw [max_eq_left (by omega)]
  · rw [max_eq_right (by omega)]

theorem mkValues_wellFormed (l : List (String × List String))
    (h : ∀ p ∈ l, p.2 ≠ []) : WellFormed (mkValues l) := by
  intro k
  unfold mkValues
  cases hf : l.find? (fun p => ascii p.1 = k) with
  | none => simp
  | some p =>
    have hp := h p (List.mem_of_find?_eq_some hf)
    simp
    exact hp

/-! ## The parser: sort fields -/

/-- C9: on every well-formed parameter mapping `parseSortConfig` returns a
request whose `Descending` is true when `sort_order` is absent or its first
value is exactly `down`, and false when `sort_order` is present with any other
first value, whatever the other parameters are. -/
theorem parseSortConfig_sort_order (params : Values) (hwf : WellFormed params) :
    ∃ req, parseSortConfig params = .ok req ∧
      (params (ascii "sort_order") = none → req.Descending = true) ∧
      (∀ v, firstValue params (ascii "sort_order") = some v →
        (v = ascii "down" → req.Descending = true) ∧
        (v ≠ ascii "down" → req.Descending = false)) := by
  refine ⟨_, parseSortConfig_eq hwf, ?_, ?_⟩
  · intro h
    have h2 := (firstValue_none_iff hwf _).mpr h
    simp [descendingOf, h2]
  · intro v hv
    simp [descendingOf, hv]

theorem parseSortConfig_sort_order_witness :
    WellFormed (mkValues [("sort_order", ["DOWN"])]) ∧
    ∃ req, parseSortConfig (mkValues [("sort_order", ["DOWN"])]) = .ok req ∧
      ((mkValues [("sort_order", ["DOWN"])]) (ascii "sort_order") = none →
        req.Descending = true) ∧
      (∀ v, firstValue (mkValues [("sort_order", ["DOWN"])]) (ascii "sort_order") = some v →
        (v = ascii "down" → req.Descending = true) ∧
        (v ≠ ascii "down" → req.Descending = false)) :=
  ⟨mkValues_wellFormed _ (by decide),
   parseSortConfig_sort_order _ (mkValues_wellFormed _ (by decide))⟩

/-- C10: on every well-formed parameter mapping `parseSortConfig` returns
`ByRating = true, ByDate = false` when the first `sort_by` value is exactly
`rating`, and `ByDate = true, ByRating = false` for any other value or when
`sort_by` is absent; exactly one of the two flags is true in every request it
returns. -/
theorem parseSortConfig_sort_by (params : Values) (hwf : WellFormed params) :
    ∃ req, parseSortConfig params = .ok req ∧
      (params (ascii "sort_by") = none → req.ByRating = false ∧ req.ByDate = true) ∧
      (∀ v, firstValue params (ascii "sort_by") = some v →
        (v = ascii "rating" → req.ByRating = true ∧ req.ByDate = false) ∧
        (v ≠ ascii "rating" → req.ByRating = false ∧ req.ByDate = true)) ∧
      req.ByRating ≠ req.ByDate := by
  refine ⟨_, parseSortConfig_eq hwf, ?_, ?_, ?_⟩
  · intro h
    have h2 := (firstValue_none_iff hwf _).mpr h
    simp [byRatingOf, h2]
  · intro v hv
    simp [byRatingOf, hv]
  · simp

theorem parseSortConfig_sort_by_witness :
    WellFormed (mkValues [("sort_by", ["rating"]), ("count", ["x"])]) ∧
    ∃ req, parseSortConfig (mkValues [("sort_by", ["rating"]), ("count", ["x"])]) = .ok req ∧
      ((mkValues [("sort_by", ["rating"]), ("count", ["x"])]) (ascii "sort_by") = none →
        req.ByRating = false ∧ req.ByDate = true) ∧
      (∀ v, firstValue (mkValues [("sort_by", ["rating"]), ("count", ["x"])]) (ascii "sort_by")
          = some v →
        (v = ascii "rating" → req.ByRating = true ∧ req.ByDate = false) ∧
        (v ≠ ascii "rating" → req.ByRating = false ∧ req.ByDate = true)) ∧
      req.ByRating ≠ req.ByDate :=
  ⟨mkValues_wellFormed _ (by decide),
   parseSortConfig_sort_by _ (mkValues_wellFormed _ (by decide))⟩

/-! ## The parser: fallbacks that are overwritten -/

/-- C2: the value `abc` of `count` does not parse (`ErrSyntax`), and the
request `parseSortConfig` returns for it has `Number = 0`, not 10: the
assignment `req.Number = int(n)` after the error branch overwrites the
fallback with the zero `ParseInt` returned. -/
theorem parseSortConfig_unparsable_count :
    ParseInt (ascii "abc") 10 32 = (0, some .invalid) ∧
    parseSortConfig (mkValues [("count", ["abc"])]) =
      .ok { ByRating := false, ByDate := true, Descending := true, Number := 0, Offset := 0 } :=
  ⟨by rfl, by rfl⟩

/-- C3: the out-of-range value `99999999999` of `page` does not parse
(`ErrRange`, with the result saturated at `2147483647`), and the request has
`Offset = 2147483646 * 10`; the non-numeric `page=abc` together with
`count=-5` gives `Offset = 5`.  In both the assignment after the error branch
overwrites the fallback `Offset = 0`. -/
theorem parseSortConfig_unparsable_page :
    ParseInt (ascii "99999999999") 10 32 = (2147483647, some .outOfRange) ∧
    parseSortConfig (mkValues [("page", ["99999999999"])]) =
      .ok { ByRating := false, ByDate := true, Descending := true, Number := 10,
            Offset := 21474836460 } ∧
    ParseInt (ascii "abc") 10 32 = (0, some .invalid) ∧
    parseSortConfig (mkValues [("count", ["-5"]), ("page", ["abc"])]) =
      .ok { ByRating := false, ByDate := true, Descending := true, Number := -5,
            Offset := 5 } :=
  ⟨by rfl, by rfl, by rfl, by rfl⟩

/-- C1: for every store, `HomePage` on a list request with `count=abc`
(unparsable, so `Number` becomes 0) or with `count=0` panics with an integer
division by zero at `req.Offset/req.Number + 1`. -/
theorem HomePage_divides_by_zero :
    (∀ db, HomePage db (mkValues [("count", ["abc"])]) = .error .divideByZero) ∧
    (∀ db, HomePage db (mkValues [("count", ["0"])]) = .error .divideByZero) :=
  ⟨fun _ => rfl, fun _ => rfl⟩


/-! ## HomePage: navigation flags -/

theorem homePageConfig_links {db : Backend} {params : Values} {p : PageConfig}
    (h : homePageConfig db params = .ok p) : p.PrevLink = [] ∧ p.NextLink = [] := by
  unfold homePageConfig at h
  split at h
  · rename_i vs _
    cases vs with
    | nil => simp [index0, bind, Except.bind] at h
    | cons v r =>
      simp only [index0, bind, Except.bind, pure, Except.pure] at h
      split at h <;> (injection h with h; subst h; simp)
  · cases hq : parseSortConfig params with
    | error e => simp [hq, bind, Except.bind] at h
    | ok req =>
      cases hc : currentPage req with
      | error e => simp [hq, hc, bind, Except.bind] at h
      | ok page =>
        simp only [hq, hc, bind, Except.bind, pure, Except.pure] at h
        injection h with h
        subst h
        simp

theorem HomePage_ok {db : Backend} {params : Values} {p : PageConfig}
    (h : HomePage db params = .ok p) :
    ∃ p0, homePageConfig db params = .ok p0 ∧ p = setNavigation p0 := by
  unfold HomePage at h
  cases h0 : homePageConfig db params with
  | error e => simp [h0, bind, Except.bind] at h
  | ok p0 =>
    simp only [h0, bind, Except.bind, pure, Except.pure] at h
    injection h with h
    exact ⟨p0, rfl, h.symm⟩

theorem navLink_congr (p q : PageConfig) (o : Int) (h1 : p.SortConfig = q.SortConfig)
    (h2 : p.Page = q.Page) : navLink p o = navLink q o := by
  unfold navLink
  rw [h1, h2]

theorem setNavigation_Page (p : PageConfig) : (setNavigation p).Page = p.Page := by
  simp only [setNavigation]
  split_ifs <;> rfl

theorem setNavigation_Pages (p : PageConfig) : (setNavigation p).Pages = p.Pages := by
  simp only [setNavigation]
  split_ifs <;> rfl

theorem setNavigation_SortConfig (p : PageConfig) :
    (setNavigation p).SortConfig = p.SortConfig := by
  simp only [setNavigation]
  split_ifs <;> rfl

theorem setNavigation_PrevButton (p : PageConfig) :
    (setNavigation p).PrevButton = decide (p.Page > 1) := by
  simp only [setNavigation]
  split_ifs <;> rfl

theorem setNavigation_NextButton (p : PageConfig) :
    (setNavigation p).NextButton = (decide (p.Pages > 0) && decide (p.Page ≠ p.Pages)) := by
  simp only [setNavigation]
  split_ifs <;> rfl

theorem setNavigation_PrevLink (p : PageConfig) :
    (setNavigation p).PrevLink = if p.Page > 1 then navLink p (-1) else p.PrevLink := by
  simp only [setNavigation]
  split_ifs <;> first | rfl | exact navLink_congr _ _ _ rfl rfl | simp_all

theorem setNavigation_NextLink (p : PageConfig) :
    (setNavigation p).NextLink =
      if p.Pages > 0 ∧ p.Page ≠ p.Pages then navLink p 1 else p.NextLink := by
  simp only [setNavigation]
  split_ifs <;> first | rfl | exact navLink_congr _ _ _ rfl rfl | simp_all

/-- C7: in every `PageConfig` `HomePage` produces, `PrevButton` is true
exactly when `Page > 1` and `NextButton` is true exactly when `Pages > 0` and
`Page ≠ Pages`; so `NextButton` is false when `Pages = 0` or `Page = Pages`,
`PrevButton` is false when `Page = 1`, and `PrevLink` / `NextLink` are
non-empty only when the matching flag is true. -/
theorem HomePage_buttons (db : Backend) (params : Values) (p : PageConfig)
    (h : HomePage db params = .ok p) :
    (p.PrevButton = true ↔ p.Page > 1) ∧
    (p.NextButton = true ↔ (p.Pages > 0 ∧ p.Page ≠ p.Pages)) ∧
    (p.Pages = 0 → p.NextButton = false) ∧
    (p.Page = p.Pages → p.NextButton = false) ∧
    (p.Page = 1 → p.PrevButton = false) ∧
    (p.PrevLink ≠ [] → p.PrevButton = true) ∧
    (p.NextLink ≠ [] → p.NextButton = true) := by
  obtain ⟨p0, h0, rfl⟩ := HomePage_ok h
  obtain ⟨hl1, hl2⟩ := homePageConfig_links h0
  rw [setNavigation_PrevButton, setNavigation_NextButton, setNavigation_PrevLink,
    setNavigation_NextLink, setNavigation_Page, setNavigation_Pages, hl1, hl2]
  by_cases c1 : p0.Page > 1 <;> by_cases c2 : p0.Pages > 0 <;>
    by_cases c3 : p0.Page = p0.Pages <;> simp [c1, c2, c3] <;> omega

theorem HomePage_buttons_witness :
    ∃ p, HomePage ⟨100, 3, fun _ => none, fun _ => ([], 5)⟩
        (mkValues [("count", ["7"]), ("page", ["3"])]) = .ok p ∧
      (p.PrevButton = true ↔ p.Page > 1) ∧
      (p.NextButton = true ↔ (p.Pages > 0 ∧ p.Page ≠ p.Pages)) ∧
      (p.Pages = 0 → p.NextButton = false) ∧
      (p.Page = p.Pages → p.NextButton = false) ∧
      (p.Page = 1 → p.PrevButton = false) ∧
      (p.PrevLink ≠ [] → p.PrevButton = true) ∧
      (p.NextLink ≠ [] → p.NextButton = true) :=
  ⟨_, rfl, HomePage_buttons ⟨100, 3, fun _ => none, fun _ => ([], 5)⟩
      (mkValues [("count", ["7"]), ("page", ["3"])]) _ rfl⟩


/-! ## The parser: page and offset -/

theorem numberOf_absent {params : Values} (h : firstValue params (ascii "count") = none) :
    numberOf params = 10 := by
  unfold numberOf
  rw [h]

theorem offsetOf_absent {params : Values} (h : firstValue params (ascii "page") = none) :
    offsetOf params = 0 := by
  unfold offsetOf
  rw [h]

/-- C4, counterexample: `page=0` parses to 0 and `count=-5` to -5, and the
request has `Offset = 5`: the product `(0-1) * (-5)` is positive, so the clamp
of negative offsets leaves it. -/
theorem parseSortConfig_page_zero_negative_count :
    ParseInt (ascii "0") 10 32 = (0, none) ∧
    ParseInt (ascii "-5") 10 32 = (-5, none) ∧
    parseSortConfig (mkValues [("count", ["-5"]), ("page", ["0"])]) =
      .ok { ByRating := false, ByDate := true, Descending := true, Number := -5,
            Offset := 5 } :=
  ⟨by rfl, by rfl, by rfl⟩

/-- C4, amended: when the first `page` value parses to an integer `p ≤ 0` and
`count` is absent or its first value parses to an integer `c ≥ 0`,
`parseSortConfig` returns a request with `Offset = 0`. -/
theorem parseSortConfig_nonpositive_page (params : Values) (vp : GoString) (p : Int)
    (hwf : WellFormed params)
    (hp : firstValue params (ascii "page") = some vp)
    (hpp : ParseInt vp 10 32 = (p, none)) (hp0 : p ≤ 0)
    (hc : params (ascii "count") = none ∨
      ∃ vc c, firstValue params (ascii "count") = some vc ∧
        ParseInt vc 10 32 = (c, none) ∧ 0 ≤ c) :
    ∃ req, parseSortConfig params = .ok req ∧ req.Offset = 0 := by
  refine ⟨_, parseSortConfig_eq hwf, ?_⟩
  show offsetOf params = 0
  rw [offsetOf_parsed hp, hpp]
  have hn : 0 ≤ numberOf params := by
    rcases hc with h | ⟨vc, c, h1, h2, h3⟩
    · rw [numberOf_absent ((firstValue_none_iff hwf _).mpr h)]
      omega
    · rw [numberOf_parsed h1, h2]
      exact h3
  apply max_eq_left
  exact mul_nonpos_of_nonpos_of_nonneg (by show p - 1 ≤ 0; omega) hn

theorem parseSortConfig_nonpositive_page_witness :
    WellFormed (mkValues [("count", ["25"]), ("page", ["-3"])]) ∧
    firstValue (mkValues [("count", ["25"]), ("page", ["-3"])]) (ascii "page")
      = some (ascii "-3") ∧
    ParseInt (ascii "-3") 10 32 = (-3, none) ∧ (-3 : Int) ≤ 0 ∧
    ((mkValues [("count", ["25"]), ("page", ["-3"])]) (ascii "count") = none ∨
      ∃ vc c, firstValue (mkValues [("count", ["25"]), ("page", ["-3"])]) (ascii "count")
          = some vc ∧ ParseInt vc 10 32 = (c, none) ∧ 0 ≤ c) ∧
    ∃ req, parseSortConfig (mkValues [("count", ["25"]), ("page", ["-3"])]) = .ok req ∧
      req.Offset = 0 :=
  ⟨mkValues_wellFormed _ (by decide), rfl, rfl, by decide,
   Or.inr ⟨ascii "25", 25, rfl, rfl, by decide⟩,
   parseSortConfig_nonpositive_page _ (ascii "-3") (-3) (mkValues_wellFormed _ (by decide))
     rfl rfl (by decide) (Or.inr ⟨ascii "25", 25, rfl, rfl, by decide⟩)⟩

theorem HomePage_list {db : Backend} {params : Values} {req : SortConfig} {page : Int}
    (hid : params (ascii "id") = none) (hq : parseSortConfig params = .ok req)
    (hc : currentPage req = .ok page) :
    HomePage db params = .ok (setNavigation
      { Page := page, Pages := (db.GetBulkQuotes req).2, Quotes := (db.GetBulkQuotes req).1,
        DBSize := db.Size, ModerationQueueSize := db.ModerationQueueSize,
        NextButton := false, PrevButton := false, NextLink := [], PrevLink := [],
        SortConfig := req }) := by
  unfold HomePage homePageConfig
  rw [hid]
  simp only [hq, hc, bind, Except.bind, pure, Except.pure]

/-- C6: when the first `count` value parses to `c > 0` and the first `page`
value parses to `p > 0` (both as 32-bit integers), `parseSortConfig` returns
`Number = c` and `Offset = (p-1)*c`, the page `Offset/Number + 1` computed
from it is `p`, and `HomePage` on the list path sets `Page = p`. -/
theorem page_offset_round_trip (db : Backend) (params : Values) (vc vp : GoString)
    (c p : Int) (hwf : WellFormed params) (hid : params (ascii "id") = none)
    (hc : firstValue params (ascii "count") = some vc)
    (hcp : ParseInt vc 10 32 = (c, none)) (hc0 : 0 < c)
    (hp : firstValue params (ascii "page") = some vp)
    (hpp : ParseInt vp 10 32 = (p, none)) (hp0 : 0 < p) :
    ∃ req, parseSortConfig params = .ok req ∧ req.Number = c ∧ req.Offset = (p - 1) * c ∧
      currentPage req = .ok p ∧
      ∃ pc, HomePage db params = .ok pc ∧ pc.Page = p ∧ pc.SortConfig = req := by
  have hN : numberOf params = c := by rw [numberOf_parsed hc, hcp]
  have hO : offsetOf params = (p - 1) * c := by
    rw [offsetOf_parsed hp, hpp, hN]
    exact max_eq_right (mul_nonneg (by show 0 ≤ p - 1; omega) (by omega))
  have hpr := ParseInt_range vp
  rw [hpp] at hpr
  have hcur : currentPage
      { ByRating := byRatingOf params, ByDate := !(byRatingOf params),
        Descending := descendingOf params, Number := numberOf params,
        Offset := offsetOf params } = .ok p := by
    unfold currentPage goDiv
    simp only [hN, hO, intSize]
    rw [if_neg (by omega), Int.mul_tdiv_cancel _ (by omega)]
    simp only [bind, Except.bind, pure, Except.pure]
    rw [wrapInt64_eq (p - 1) (by simp at hpr; omega) (by simp at hpr; omega),
      wrapInt64_eq _ (by simp at hpr; omega) (by simp at hpr; omega)]
    simp
  refine ⟨_, parseSortConfig_eq hwf, hN, hO, hcur, ?_⟩
  refine ⟨_, HomePage_list hid (parseSortConfig_eq hwf) hcur, ?_, ?_⟩
  · rw [setNavigation_Page]
  · rw [setNavigation_SortConfig]

theorem page_offset_round_trip_witness :
    WellFormed (mkValues [("count", ["25"]), ("page", ["4"])]) ∧
    ∃ req, parseSortConfig (mkValues [("count", ["25"]), ("page", ["4"])]) = .ok req ∧
      req.Number = 25 ∧ req.Offset = (4 - 1) * 25 ∧ currentPage req = .ok 4 ∧
      ∃ pc, HomePage ⟨100, 3, fun _ => none, fun _ => ([], 5)⟩
          (mkValues [("count", ["25"]), ("page", ["4"])]) = .ok pc ∧
        pc.Page = 4 ∧ pc.SortConfig = req :=
  ⟨mkValues_wellFormed _ (by decide),
   page_offset_round_trip ⟨100, 3, fun _ => none, fun _ => ([], 5)⟩
     (mkValues [("count", ["25"]), ("page", ["4"])]) (ascii "25") (ascii "4") 25 4
     (mkValues_wellFormed _ (by decide)) rfl rfl rfl (by decide) rfl rfl (by decide)⟩


/-! ## Newline rewrites -/

theorem startsWith_iff_prefix : ∀ (s pre : GoString), startsWith s pre = true ↔ pre <+: s
  | _, [] => by simp [startsWith]
  | [], _ :: _ => by simp [startsWith]
  | c :: cs, d :: ds => by
    rw [startsWith, List.cons_prefix_cons, Bool.and_eq_true, decide_eq_true_eq,
      startsWith_iff_prefix cs ds]
    constructor
    · rintro ⟨h1, h2⟩
      exact ⟨h1.symm, h2⟩
    · rintro ⟨h1, h2⟩
      exact ⟨h1.symm, h2⟩

theorem Contains_iff_infix : ∀ (s sub : GoString), Contains s sub = true ↔ sub <:+: s
  | [], sub => by
    rw [Contains, startsWith_iff_prefix]
    simp
  | c :: cs, sub => by
    rw [Contains, Bool.or_eq_true, startsWith_iff_prefix, Contains_iff_infix cs sub,
      List.infix_cons_iff]

theorem replaceFrom_pair (a b : Nat) (new : GoString) (x y : Nat) (rest : GoString) :
    replaceFrom [a, b] new 0 (x :: y :: rest) =
      if x = a ∧ y = b then new ++ replaceFrom [a, b] new 0 rest
      else x :: replaceFrom [a, b] new 0 (y :: rest) := by
  simp only [replaceFrom, startsWith, Bool.and_true, Bool.and_eq_true, decide_eq_true_eq,
    List.length_cons, List.length_nil]

theorem replaceFrom_single (a b : Nat) (new : GoString) (x : Nat) :
    replaceFrom [a, b] new 0 [x] = [x] := by
  simp [replaceFrom, startsWith]

theorem Contains_pair (a b x y : Nat) (rest : GoString) :
    Contains (x :: y :: rest) [a, b] = (decide (x = a ∧ y = b) || Contains (y :: rest) [a, b]) := by
  simp [Contains, startsWith]

theorem Contains_single (a b x : Nat) : Contains [x] [a, b] = false := by
  simp [Contains, startsWith]

theorem normalize_head (y : Nat) (rest : GoString) :
    ∃ z t, replaceFrom crlf marker 0 (y :: rest) = z :: t ∧ (z = y ∨ z = 92) := by
  cases rest with
  | nil => exact ⟨y, [], replaceFrom_single _ _ _ _, Or.inl rfl⟩
  | cons w r =>
    unfold crlf marker
    rw [replaceFrom_pair]
    split_ifs
    · exact ⟨92, _, rfl, Or.inr rfl⟩
    · exact ⟨y, _, rfl, Or.inl rfl⟩

theorem round_trip_aux : ∀ s : GoString, Contains s marker = false →
    replaceFrom marker brTag 0 (replaceFrom crlf marker 0 s) = replaceFrom crlf brTag 0 s ∧
    Contains (replaceFrom crlf marker 0 s) crlf = false
  | [], _ => by simp [replaceFrom, Contains, startsWith, crlf]
  | [x], _ => by
    unfold crlf marker
    simp [replaceFrom_single, Contains_single]
  | x :: y :: rest, h => by
    unfold marker at h
    rw [Contains_pair] at h
    simp only [Bool.or_eq_false_iff, decide_eq_false_iff_not] at h
    obtain ⟨hxy, hrest⟩ := h
    have ih1 := round_trip_aux (y :: rest) hrest
    by_cases hc : x = 13 ∧ y = 10
    · have hrest2 : Contains rest marker = false := by
        cases rest with
        | nil => simp [Contains, startsWith, marker]
        | cons w r =>
          unfold marker
          rw [Contains_pair] at hrest
          simp only [Bool.or_eq_false_iff] at hrest
          exact hrest.2
      have ih2 := round_trip_aux rest hrest2
      unfold crlf marker at ih2 ⊢
      rw [replaceFrom_pair, if_pos hc, replaceFrom_pair 13 10 brTag, if_pos hc]
      show replaceFrom [92, 110] brTag 0 (92 :: 110 :: replaceFrom [13, 10] [92, 110] 0 rest) = _
        ∧ Contains (92 :: 110 :: replaceFrom [13, 10] [92, 110] 0 rest) [13, 10] = false
      rw [replaceFrom_pair, if_pos ⟨rfl, rfl⟩, ih2.1]
      refine ⟨rfl, ?_⟩
      cases hr : replaceFrom [13, 10] [92, 110] 0 rest with
      | nil => simp [Contains, startsWith]
      | cons z t =>
        rw [Contains_pair, Contains_pair]
        rw [hr] at ih2
        simp [ih2.2]
    · obtain ⟨z, t, hz, hzy⟩ := normalize_head y rest
      unfold crlf marker at ih1 hz ⊢
      rw [replaceFrom_pair, if_neg hc, replaceFrom_pair 13 10 brTag, if_neg hc, hz]
      rw [hz] at ih1
      have hxz : ¬ (x = 92 ∧ z = 110) := by
        rintro ⟨h1, h2⟩
        rcases hzy with h3 | h3
        · exact hxy ⟨h1, h3 ▸ h2⟩
        · omega
      have hxz2 : ¬ (x = 13 ∧ z = 10) := by
        rintro ⟨h1, h2⟩
        rcases hzy with h3 | h3
        · exact hc ⟨h1, h3 ▸ h2⟩
        · omega
      rw [replaceFrom_pair, if_neg hxz, ih1.1, Contains_pair, ih1.2]
      simp [hxz2]

theorem replaceFrom_crlf_spec : ∀ s : GoString,
    replaceFrom crlf brTag 0 s = spec_crlfToBr s
  | [] => by simp [replaceFrom, spec_crlfToBr]
  | [x] => by
    unfold crlf
    rw [replaceFrom_single]
    rfl
  | x :: y :: rest => by
    have ih1 := replaceFrom_crlf_spec rest
    have ih2 := replaceFrom_crlf_spec (y :: rest)
    unfold crlf at ih1 ih2 ⊢
    rw [replaceFrom_pair, spec_crlfToBr, ih1, ih2]
    rfl

theorem normalize_then_replaceMarker (s : GoString) (h : ¬ marker <:+: s) :
    HomePage_replaceMarker (AddQuote_normalize s) = spec_crlfToBr s ∧
    ¬ crlf <:+: AddQuote_normalize s := by
  have hc : Contains s marker = false := by
    rw [← Bool.not_eq_true, Contains_iff_infix]
    exact h
  have h1 := round_trip_aux s hc
  constructor
  · unfold HomePage_replaceMarker AddQuote_normalize ReplaceAll
    rw [h1.1, replaceFrom_crlf_spec]
  · rw [← Contains_iff_infix, Bool.not_eq_true]
    exact h1.2

theorem Fprintf_noOperands_plain (t : GoString) (h : 37 ∉ t) :
    Fprintf_noOperands t = some t := by
  induction t with
  | nil => rfl
  | cons c cs ih =>
    have hc : c ≠ 37 := fun e => h (e ▸ List.mem_cons_self _ _)
    unfold Fprintf_noOperands
    rw [if_neg hc, ih (fun e => h (List.mem_cons_of_mem _ e))]
    rfl

theorem spec_crlfToBr_no_percent : ∀ s : GoString, 37 ∉ s → 37 ∉ spec_crlfToBr s
  | [], h => by
    rw [spec_crlfToBr]
    exact h
  | [x], h => by
    rw [spec_crlfToBr]
    exact h
  | x :: y :: rest, h => by
    have hx : (37 : Nat) ≠ x := fun e => h (e ▸ List.mem_cons_self _ _)
    have hyr : 37 ∉ y :: rest := fun e => h (List.mem_cons_of_mem _ e)
    have hr : 37 ∉ rest := fun e => hyr (List.mem_cons_of_mem _ e)
    have ih1 := spec_crlfToBr_no_percent rest hr
    have ih2 := spec_crlfToBr_no_percent (y :: rest) hyr
    have hb : 37 ∉ ascii "<br />" := by decide
    rw [spec_crlfToBr]
    split_ifs
    · intro e
      rcases List.mem_append.mp e with e | e
      · exact hb e
      · exact ih1 e
    · intro e
      rcases List.mem_cons.mp e with e | e
      · exact hx e
      · exact ih2 e

theorem HomePage_render_plain (s : GoString) (h : ¬ marker <:+: s)
    (hp : 37 ∉ s) : HomePage_render (AddQuote_normalize s) = some (spec_crlfToBr s) := by
  unfold HomePage_render
  rw [(normalize_then_replaceMarker s h).1]
  exact Fprintf_noOperands_plain _ (spec_crlfToBr_no_percent s hp)

/-- C8: the quote text `100%`, CRLF, `sure` holds no marker and `AddQuote`
stores it as `100%`, backslash, `nsure`, which holds no CRLF; the spec's
display form is `100%<br />sure`, and line 118 of `HomePage` computes exactly
that from the stored text; but line 119 passes it to `fmt.Fprintf` as the
format string, so the text sent is `100%!<(MISSING)br />sure`: something other
than the line break has changed. -/
theorem newline_round_trip_format_string :
    ¬ marker <:+: ascii "100%\r\nsure" ∧
    AddQuote_normalize (ascii "100%\r\nsure") = ascii "100%\\nsure" ∧
    ¬ crlf <:+: ascii "100%\\nsure" ∧
    spec_crlfToBr (ascii "100%\r\nsure") = ascii "100%<br />sure" ∧
    HomePage_replaceMarker (ascii "100%\\nsure") = ascii "100%<br />sure" ∧
    HomePage_render (ascii "100%\\nsure") = some (ascii "100%!<(MISSING)br />sure") ∧
    HomePage_render (AddQuote_normalize (ascii "100%\r\nsure")) ≠
      some (spec_crlfToBr (ascii "100%\r\nsure")) := by
  refine ⟨?_, ?_, ?_, ?_, ?_, ?_, ?_⟩
  · rw [← Contains_iff_infix]
    decide
  · rfl
  · rw [← Contains_iff_infix]
    decide
  · rfl
  · rfl
  · rfl
  · decide


/-! ## Decimal formatting and parsing -/

theorem formatUintAux_digits (fuel u : Nat) (acc : GoString)
    (hacc : ∀ c ∈ acc, 48 ≤ c ∧ c ≤ 57) :
    ∀ c ∈ formatUintAux fuel u acc, 48 ≤ c ∧ c ≤ 57 := by
  induction fuel generalizing u acc with
  | zero => simpa [formatUintAux] using hacc
  | succ fuel ih =>
    unfold formatUintAux
    split_ifs with h
    · intro c hc
      rcases List.mem_cons.mp hc with rfl | hc
      · omega
      · exact hacc c hc
    · apply ih
      intro c hc
      rcases List.mem_cons.mp hc with rfl | hc
      · omega
      · exact hacc c hc

theorem formatUintAux_ne_nil (fuel u : Nat) (acc : GoString) :
    formatUintAux (fuel + 1) u acc ≠ [] := by
  induction fuel generalizing u acc with
  | zero =>
    unfold formatUintAux
    split_ifs <;> simp [formatUintAux]
  | succ fuel ih =>
    unfold formatUintAux
    split_ifs
    · simp
    · exact ih _ _

theorem parseUintLoop_digit (d n : Nat) (acc : GoString) (hd : d < 10)
    (hn : n * 10 + d ≤ 4294967295) :
    parseUintLoop 10 32 ((48 + d) :: acc) n = parseUintLoop 10 32 acc (n * 10 + d) := by
  have hdv : digitVal (48 + d) = some d := by
    unfold digitVal
    rw [if_pos (by omega)]
    simp
  rw [parseUintLoop, hdv]
  simp only [Nat.reducePow, Nat.reduceSub, Nat.reduceDiv, Nat.reduceAdd]
  rw [if_neg (by omega), if_neg (by omega)]
  have hmod : (n * 10 + d) % 18446744073709551616 = n * 10 + d := Nat.mod_eq_of_lt (by omega)
  simp only [hmod]
  rw [if_neg (by omega)]

theorem parseUintLoop_formatUintAux (fuel u : Nat) (acc : GoString)
    (hfuel : u < 10 ^ fuel) (hu : u ≤ 4294967295) :
    parseUintLoop 10 32 (formatUintAux fuel u acc) 0 = parseUintLoop 10 32 acc u := by
  induction fuel generalizing u acc with
  | zero => simp at hfuel; subst hfuel; rfl
  | succ fuel ih =>
    unfold formatUintAux
    split_ifs with h
    · rw [parseUintLoop_digit u 0 acc h (by omega)]
      simp
    · have h1 : u / 10 < 10 ^ fuel := by
        rw [Nat.div_lt_iff_lt_mul (by norm_num)]
        rw [pow_succ] at hfuel
        exact hfuel
      rw [ih (u / 10) _ h1 (by omega),
        parseUintLoop_digit (u % 10) (u / 10) acc (Nat.mod_lt _ (by norm_num)) (by omega)]
      congr 1
      omega

theorem ParseUint_formatUint (u : Nat) (hu : u ≤ 4294967295) :
    ParseUint (formatUint u) 10 32 = (u, none) := by
  unfold ParseUint formatUint
  rw [if_neg (formatUintAux_ne_nil 19 u []),
    parseUintLoop_formatUintAux 20 u [] (by omega) hu]
  rfl

theorem formatUint_head (u : Nat) :
    ∃ c cs, formatUint u = c :: cs ∧ 48 ≤ c ∧ c ≤ 57 := by
  have h1 := formatUintAux_ne_nil 19 u []
  have h2 := formatUintAux_digits 20 u [] (by simp)
  unfold formatUint
  cases hf : formatUintAux 20 u [] with
  | nil => exact absurd hf h1
  | cons c cs =>
    rw [hf] at h2
    exact ⟨c, cs, rfl, h2 c (List.mem_cons_self _ _)⟩

theorem ParseInt_FormatInt (z : Int) (h1 : -2147483648 ≤ z) (h2 : z ≤ 2147483647) :
    ParseInt (FormatInt z) 10 32 = (z, none) := by
  unfold FormatInt
  split_ifs with hneg
  · unfold ParseInt
    simp only [if_neg (show (45 : Nat) ≠ 43 by decide), if_pos]
    rw [ParseUint_formatUint _ (by omega)]
    unfold parseIntFinish
    simp only [Nat.add_one_sub_one, Nat.reducePow]
    rw [if_neg (by simp), if_neg (by simp; omega)]
    simp
    omega
  · obtain ⟨c, cs, hc, hc1, hc2⟩ := formatUint_head z.toNat
    have hP := ParseUint_formatUint z.toNat (by omega)
    rw [hc] at hP ⊢
    unfold ParseInt
    simp only [if_neg (show c ≠ 43 by omega), if_neg (show c ≠ 45 by omega)]
    rw [hP]
    unfold parseIntFinish
    simp only [Nat.add_one_sub_one, Nat.reducePow]
    rw [if_neg (by simp; omega), if_neg (by simp)]
    simp
    omega

theorem FormatInt_bytes (z : Int) : ∀ c ∈ FormatInt z, c = 45 ∨ (48 ≤ c ∧ c ≤ 57) := by
  unfold FormatInt formatUint
  split_ifs
  · intro c hc
    rcases List.mem_cons.mp hc with rfl | hc
    · exact Or.inl rfl
    · exact Or.inr (formatUintAux_digits 20 _ [] (by simp) c hc)
  · intro c hc
    exact Or.inr (formatUintAux_digits 20 _ [] (by simp) c hc)


/-! ## Parsing the query of a navigation link -/

theorem cutByte_append (sep : Nat) (a b : GoString) (ha : sep ∉ a) :
    cutByte sep (a ++ sep :: b) = (a, b) := by
  induction a with
  | nil => simp [cutByte]
  | cons c cs ih =>
    have hc : c ≠ sep := fun h => ha (h ▸ List.mem_cons_self _ _)
    have hcs : sep ∉ cs := fun h => ha (List.mem_cons_of_mem _ h)
    rw [List.cons_append, cutByte, if_neg hc, ih hcs]

theorem splitByte_clean (sep : Nat) (a : GoString) (ha : sep ∉ a) :
    splitByte sep a = [a] := by
  induction a with
  | nil => rfl
  | cons c cs ih =>
    have hc : c ≠ sep := fun h => ha (h ▸ List.mem_cons_self _ _)
    have hcs : sep ∉ cs := fun h => ha (List.mem_cons_of_mem _ h)
    simp only [splitByte, if_neg hc, ih hcs]

theorem splitByte_append (sep : Nat) (a b : GoString) (ha : sep ∉ a) :
    splitByte sep (a ++ sep :: b) = a :: splitByte sep b := by
  induction a with
  | nil => simp [splitByte]
  | cons c cs ih =>
    have hc : c ≠ sep := fun h => ha (h ▸ List.mem_cons_self _ _)
    have hcs : sep ∉ cs := fun h => ha (List.mem_cons_of_mem _ h)
    rw [List.cons_append, splitByte, if_neg hc, ih hcs]

theorem QueryUnescape_plain (s : GoString) (h1 : 37 ∉ s) (h2 : 43 ∉ s) :
    QueryUnescape s = some s := by
  induction s with
  | nil => rfl
  | cons c cs ih =>
    have hc1 : c ≠ 37 := fun h => h1 (h ▸ List.mem_cons_self _ _)
    have hc2 : c ≠ 43 := fun h => h2 (h ▸ List.mem_cons_self _ _)
    have ih2 := ih (fun h => h1 (List.mem_cons_of_mem _ h)) (fun h => h2 (List.mem_cons_of_mem _ h))
    unfold QueryUnescape
    rw [if_neg hc1, ih2, if_neg hc2]
    rfl

theorem parseQueryStep_pair (m : Values) (k v : GoString)
    (hk1 : ∀ c ∈ k, c ≠ 61 ∧ c ≠ 59 ∧ c ≠ 37 ∧ c ≠ 43)
    (hv1 : ∀ c ∈ v, c ≠ 59 ∧ c ≠ 37 ∧ c ≠ 43) :
    parseQueryStep m (k ++ 61 :: v) =
      fun x => if x = k then some ((m x).getD [] ++ [v]) else m x := by
  unfold parseQueryStep
  have h59 : 59 ∉ k ++ 61 :: v := by
    intro h
    rcases List.mem_append.mp h with h | h
    · exact (hk1 59 h).2.1 rfl
    · rcases List.mem_cons.mp h with h | h
      · omega
      · exact (hv1 59 h).1 rfl
  have hne : k ++ 61 :: v ≠ [] := by simp
  rw [if_neg h59, if_neg hne, cutByte_append 61 k v (fun h => (hk1 61 h).1 rfl)]
  simp only
  rw [QueryUnescape_plain k (fun h => (hk1 37 h).2.2.1 rfl) (fun h => (hk1 43 h).2.2.2 rfl),
    QueryUnescape_plain v (fun h => (hv1 37 h).2.1 rfl) (fun h => (hv1 43 h).2.2 rfl)]


theorem parseQueryStep_wellFormed (m : Values) (key : GoString) (hm : WellFormed m) :
    WellFormed (parseQueryStep m key) := by
  unfold parseQueryStep
  split_ifs
  · exact hm
  · exact hm
  · split
    split
    · intro x
      show (if x = _ then _ else _) ≠ _
      split_ifs
      · simp
      · exact hm x
    · exact hm

theorem foldl_parseQueryStep_wellFormed (segs : List GoString) (m : Values)
    (hm : WellFormed m) : WellFormed (segs.foldl parseQueryStep m) := by
  induction segs generalizing m with
  | nil => exact hm
  | cons seg rest ih => exact ih _ (parseQueryStep_wellFormed m seg hm)

theorem ParseQuery_wellFormed (query : GoString) : WellFormed (ParseQuery query) :=
  foldl_parseQueryStep_wellFormed _ _ (fun _ => by simp)

theorem PlainBytes_FormatInt (z : Int) : PlainBytes (FormatInt z) := by
  intro c hc
  rcases FormatInt_bytes z c hc with h | h <;> omega

theorem plain_segment {k v : GoString} (hk : PlainBytes k) (hv : PlainBytes v) :
    38 ∉ k ++ 61 :: v := by
  intro h
  rcases List.mem_append.mp h with h | h
  · exact (hk 38 h).1 rfl
  · rcases List.mem_cons.mp h with h | h
    · omega
    · exact (hv 38 h).1 rfl

theorem ParseQuery_four (k1 k2 k3 k4 a b c d : GoString)
    (hk1 : PlainBytes k1) (hk2 : PlainBytes k2) (hk3 : PlainBytes k3) (hk4 : PlainBytes k4)
    (ha : PlainBytes a) (hb : PlainBytes b) (hc : PlainBytes c) (hd : PlainBytes d) :
    ParseQuery ((k1 ++ 61 :: a) ++ 38 :: ((k2 ++ 61 :: b) ++ 38 ::
      ((k3 ++ 61 :: c) ++ 38 :: (k4 ++ 61 :: d)))) =
    parseQueryStep (parseQueryStep (parseQueryStep (parseQueryStep (fun _ => none)
      (k1 ++ 61 :: a)) (k2 ++ 61 :: b)) (k3 ++ 61 :: c)) (k4 ++ 61 :: d) := by
  unfold ParseQuery
  rw [splitByte_append 38 _ _ (plain_segment hk1 ha),
    splitByte_append 38 _ _ (plain_segment hk2 hb),
    splitByte_append 38 _ _ (plain_segment hk3 hc),
    splitByte_clean 38 _ (plain_segment hk4 hd)]
  rfl

theorem navLink_shape (p : PageConfig) (off : Int) :
    navLink p off = [47] ++ 63 :: ((ascii "count" ++ 61 :: FormatInt p.SortConfig.Number)
      ++ 38 :: ((ascii "page" ++ 61 :: FormatInt (wrapInt intSize (p.Page + off)))
      ++ 38 :: ((ascii "sort_by" ++ 61 ::
          (if p.SortConfig.ByRating then ascii "rating" else ascii "date"))
      ++ 38 :: (ascii "sort_order" ++ 61 ::
          (if p.SortConfig.Descending then ascii "down" else ascii "up"))))) := by
  have e1 : ascii "/?count=" = [47] ++ 63 :: (ascii "count" ++ [61]) := by rfl
  have e2 : ascii "&page=" = 38 :: (ascii "page" ++ [61]) := by rfl
  have e3 : ascii "&sort_by=" = 38 :: (ascii "sort_by" ++ [61]) := by rfl
  have e4 : ascii "&sort_order=" = 38 :: (ascii "sort_order" ++ [61]) := by rfl
  unfold navLink
  simp only [e1, e2, e3, e4, List.append_assoc, List.cons_append, List.nil_append,
    List.singleton_append]

theorem linkQuery_navLink (p : PageConfig) (off : Int) :
    linkQuery (navLink p off) =
      linkValues (FormatInt p.SortConfig.Number) (FormatInt (wrapInt intSize (p.Page + off)))
        (if p.SortConfig.ByRating then ascii "rating" else ascii "date")
        (if p.SortConfig.Descending then ascii "down" else ascii "up") := by
  have hk1 : PlainBytes (ascii "count") := by unfold PlainBytes; decide
  have hk2 : PlainBytes (ascii "page") := by unfold PlainBytes; decide
  have hk3 : PlainBytes (ascii "sort_by") := by unfold PlainBytes; decide
  have hk4 : PlainBytes (ascii "sort_order") := by unfold PlainBytes; decide
  have hm : PlainBytes (if p.SortConfig.ByRating then ascii "rating" else ascii "date") := by
    split_ifs <;> (unfold PlainBytes; decide)
  have hd : PlainBytes (if p.SortConfig.Descending then ascii "down" else ascii "up") := by
    split_ifs <;> (unfold PlainBytes; decide)
  have hA := PlainBytes_FormatInt p.SortConfig.Number
  have hB := PlainBytes_FormatInt (wrapInt intSize (p.Page + off))
  have p1 : ∀ {s : GoString}, PlainBytes s → ∀ c ∈ s, c ≠ 61 ∧ c ≠ 59 ∧ c ≠ 37 ∧ c ≠ 43 :=
    fun h c hc => (h c hc).2
  have p2 : ∀ {s : GoString}, PlainBytes s → ∀ c ∈ s, c ≠ 59 ∧ c ≠ 37 ∧ c ≠ 43 :=
    fun h c hc => (h c hc).2.2
  unfold linkQuery
  rw [navLink_shape, cutByte_append 63 [47] _ (by decide)]
  simp only
  rw [ParseQuery_four _ _ _ _ _ _ _ _ hk1 hk2 hk3 hk4 hA hB hm hd,
    parseQueryStep_pair _ _ _ (p1 hk1) (p2 hA), parseQueryStep_pair _ _ _ (p1 hk2) (p2 hB),
    parseQueryStep_pair _ _ _ (p1 hk3) (p2 hm), parseQueryStep_pair _ _ _ (p1 hk4) (p2 hd)]
  have n12 : ascii "page" ≠ ascii "count" := by decide
  have n13 : ascii "sort_by" ≠ ascii "count" := by decide
  have n14 : ascii "sort_order" ≠ ascii "count" := by decide
  have n23 : ascii "sort_by" ≠ ascii "page" := by decide
  have n24 : ascii "sort_order" ≠ ascii "page" := by decide
  have n34 : ascii "sort_order" ≠ ascii "sort_by" := by decide
  funext x
  unfold linkValues
  by_cases h4 : x = ascii "sort_order"
  · subst h4
    simp [n14, n24, n34]
  · by_cases h3 : x = ascii "sort_by"
    · subst h3
      simp [h4, n13, n23]
    · by_cases h2 : x = ascii "page"
      · subst h2
        simp [h4, h3, n12]
      · by_cases h1 : x = ascii "count"
        · subst h1
          simp [h4, h3, h2]
        · simp [h4, h3, h2, h1]


theorem linkValues_wellFormed (a b c d : GoString) : WellFormed (linkValues a b c d) := by
  intro k
  unfold linkValues
  split_ifs <;> simp

theorem firstValue_linkValues (a b c d : GoString) :
    firstValue (linkValues a b c d) (ascii "count") = some a ∧
    firstValue (linkValues a b c d) (ascii "page") = some b ∧
    firstValue (linkValues a b c d) (ascii "sort_by") = some c ∧
    firstValue (linkValues a b c d) (ascii "sort_order") = some d := by
  have n12 : ascii "page" ≠ ascii "count" := by decide
  have n13 : ascii "sort_by" ≠ ascii "count" := by decide
  have n14 : ascii "sort_order" ≠ ascii "count" := by decide
  have n23 : ascii "sort_by" ≠ ascii "page" := by decide
  have n24 : ascii "sort_order" ≠ ascii "page" := by decide
  have n34 : ascii "sort_order" ≠ ascii "sort_by" := by decide
  unfold firstValue linkValues
  refine ⟨?_, ?_, ?_, ?_⟩
  · simp [n12.symm, n13.symm, n14.symm]
  · simp [n23.symm, n24.symm]
  · simp [n34.symm]
  · simp

theorem offsetOf_shape (params : Values) :
    ∃ m : Int, -2147483649 ≤ m ∧ m ≤ 2147483646 ∧
      offsetOf params = max 0 (m * numberOf params) := by
  cases h : firstValue params (ascii "page") with
  | none => exact ⟨0, by omega, by omega, by rw [offsetOf_absent h]; simp⟩
  | some v =>
    have hr := ParseInt_range v
    exact ⟨(ParseInt v 10 32).1 - 1, by omega, by omega, offsetOf_parsed h⟩

theorem tdiv_bounds (a c : Int) (ha : 0 ≤ a) (ha2 : a < 9223372036854775807) :
    -9223372036854775807 < Int.tdiv a c ∧ Int.tdiv a c < 9223372036854775807 := by
  have h1 : (Int.tdiv a c).natAbs ≤ a.natAbs := by
    rw [Int.natAbs_tdiv]
    exact Nat.div_le_self _ _
  omega

theorem currentPage_reparsed (r d : Bool) (c q : Int) (hc : c ≠ 0)
    (hq1 : -2147483648 ≤ q) (hq2 : q ≤ 2147483647) (hpos : 0 ≤ (q - 1) * c) :
    currentPage { ByRating := r, ByDate := !r, Descending := d, Number := c,
                  Offset := max 0 ((q - 1) * c) } = .ok q := by
  unfold currentPage goDiv
  simp only [intSize]
  rw [if_neg hc, max_eq_right hpos, Int.mul_tdiv_cancel _ hc]
  simp only [bind, Except.bind, pure, Except.pure]
  rw [wrapInt64_eq (q - 1) (by omega) (by omega), wrapInt64_eq _ (by omega) (by omega)]
  simp

theorem parseSortConfig_linkQuery (p : PageConfig) (off : Int)
    (hn1 : -2147483648 ≤ p.SortConfig.Number) (hn2 : p.SortConfig.Number ≤ 2147483647)
    (hq1 : -2147483648 ≤ p.Page + off) (hq2 : p.Page + off ≤ 2147483647) :
    parseSortConfig (linkQuery (navLink p off)) = .ok
      { ByRating := p.SortConfig.ByRating, ByDate := !p.SortConfig.ByRating,
        Descending := p.SortConfig.Descending, Number := p.SortConfig.Number,
        Offset := max 0 ((p.Page + off - 1) * p.SortConfig.Number) } := by
  have hw : wrapInt intSize (p.Page + off) = p.Page + off :=
    wrapInt64_eq _ (by omega) (by omega)
  rw [linkQuery_navLink, hw, parseSortConfig_eq (linkValues_wellFormed _ _ _ _)]
  obtain ⟨f1, f2, f3, f4⟩ := firstValue_linkValues (FormatInt p.SortConfig.Number)
    (FormatInt (p.Page + off))
    (if p.SortConfig.ByRating then ascii "rating" else ascii "date")
    (if p.SortConfig.Descending then ascii "down" else ascii "up")
  have hN := numberOf_parsed f1
  rw [ParseInt_FormatInt _ hn1 hn2] at hN
  have hO := offsetOf_parsed f2
  rw [ParseInt_FormatInt _ hq1 hq2, hN] at hO
  have hR : byRatingOf (linkValues (FormatInt p.SortConfig.Number)
      (FormatInt (p.Page + off))
      (if p.SortConfig.ByRating then ascii "rating" else ascii "date")
      (if p.SortConfig.Descending then ascii "down" else ascii "up")) = p.SortConfig.ByRating := by
    unfold byRatingOf
    rw [f3]
    cases p.SortConfig.ByRating <;> decide
  have hD : descendingOf (linkValues (FormatInt p.SortConfig.Number)
      (FormatInt (p.Page + off))
      (if p.SortConfig.ByRating then ascii "rating" else ascii "date")
      (if p.SortConfig.Descending then ascii "down" else ascii "up")) = p.SortConfig.Descending := by
    unfold descendingOf
    rw [f4]
    cases p.SortConfig.Descending <;> decide
  rw [hN, hO, hR, hD]


theorem page_cases (m c : Int) (hc : c ≠ 0) :
    (0 ≤ m * c ∧ Int.tdiv (max 0 (m * c)) c + 1 = m + 1) ∨
    (m * c < 0 ∧ Int.tdiv (max 0 (m * c)) c + 1 = 1) := by
  by_cases h : 0 ≤ m * c
  · left
    rw [max_eq_right h, Int.mul_tdiv_cancel _ hc]
    exact ⟨h, rfl⟩
  · right
    rw [max_eq_left (by omega)]
    simp
    omega

theorem currentPage_ok {req : SortConfig} {page : Int} (h : currentPage req = .ok page)
    (ho1 : 0 ≤ req.Offset) (ho2 : req.Offset < 9223372036854775807) :
    req.Number ≠ 0 ∧ page = Int.tdiv req.Offset req.Number + 1 := by
  unfold currentPage goDiv at h
  by_cases hz : req.Number = 0
  · simp [hz, bind, Except.bind] at h
  · have hb := tdiv_bounds req.Offset req.Number ho1 ho2
    simp only [if_neg hz, bind, Except.bind, pure, Except.pure, intSize] at h
    rw [wrapInt64_eq (Int.tdiv req.Offset req.Number) (by omega) (by omega),
      wrapInt64_eq (Int.tdiv req.Offset req.Number + 1) (by omega) (by omega)] at h
    injection h with h
    exact ⟨hz, h.symm⟩

theorem HomePage_list_ok {db : Backend} {params : Values} {p : PageConfig}
    (hwf : WellFormed params) (hid : params (ascii "id") = none)
    (h : HomePage db params = .ok p) :
    ∃ m : Int, -2147483649 ≤ m ∧ m ≤ 2147483646 ∧
      p.SortConfig.Number = numberOf params ∧
      p.SortConfig.ByDate = !p.SortConfig.ByRating ∧
      numberOf params ≠ 0 ∧
      p.Page = Int.tdiv (max 0 (m * numberOf params)) (numberOf params) + 1 ∧
      p.PrevButton = decide (p.Page > 1) := by
  obtain ⟨m, hm1, hm2, hO⟩ := offsetOf_shape params
  have hn := numberOf_range params
  have hmb := mul_bounds m (numberOf params) hm1 (by omega) hn.1 hn.2
  have hq := parseSortConfig_eq hwf
  cases hc : currentPage (SortConfig.mk (byRatingOf params) (!(byRatingOf params))
      (descendingOf params) (numberOf params) (offsetOf params)) with
  | error e =>
    unfold HomePage homePageConfig at h
    rw [hid] at h
    simp [hq, hc, bind, Except.bind] at h
  | ok page =>
    have h2 := @HomePage_list db params _ _ hid hq hc
    rw [h] at h2
    injection h2 with h2
    have hcp := currentPage_ok hc (by show 0 ≤ offsetOf params; rw [hO]; exact le_max_left _ _)
      (by show offsetOf params < _; rw [hO]; rcases max_cases 0 (m * numberOf params) with h | h
          <;> omega)
    simp only at hcp
    rw [hO] at hcp
    refine ⟨m, hm1, hm2, ?_, ?_, hcp.1, ?_, ?_⟩
    · rw [h2, setNavigation_SortConfig]
    · rw [h2, setNavigation_SortConfig]
    · rw [h2, setNavigation_Page]
      exact hcp.2
    · rw [h2, setNavigation_PrevButton, setNavigation_Page]


theorem parseSortConfig_linkQuery_fields (p : PageConfig) (off : Int)
    (hn1 : -2147483648 ≤ p.SortConfig.Number) (hn2 : p.SortConfig.Number ≤ 2147483647) :
    ∃ o, parseSortConfig (linkQuery (navLink p off)) = .ok
      { ByRating := p.SortConfig.ByRating, ByDate := !p.SortConfig.ByRating,
        Descending := p.SortConfig.Descending, Number := p.SortConfig.Number,
        Offset := o } := by
  refine ⟨offsetOf (linkQuery (navLink p off)), ?_⟩
  rw [linkQuery_navLink, parseSortConfig_eq (linkValues_wellFormed _ _ _ _)]
  obtain ⟨f1, _, f3, f4⟩ := firstValue_linkValues (FormatInt p.SortConfig.Number)
    (FormatInt (wrapInt intSize (p.Page + off)))
    (if p.SortConfig.ByRating then ascii "rating" else ascii "date")
    (if p.SortConfig.Descending then ascii "down" else ascii "up")
  have hN := numberOf_parsed f1
  rw [ParseInt_FormatInt _ hn1 hn2] at hN
  rw [hN]
  unfold byRatingOf descendingOf
  rw [f3, f4]
  cases p.SortConfig.ByRating <;> cases p.SortConfig.Descending <;> rfl

/-- C5, counterexample: with `count=-5&page=3` the current page is 1 and the
next button is set, yet the next link `/?count=-5&page=2&...` parses to a
request whose page is again 1; with `count=1&page=2147483647` the current page
is 2147483647 and the next link carries `page=2147483648`, which does not
parse as a 32-bit integer, so the page computed from it is again 2147483647. -/
theorem navLink_next_not_symmetric :
    (∃ p, HomePage ⟨100, 3, fun _ => none, fun _ => ([], 5)⟩
        (mkValues [("count", ["-5"]), ("page", ["3"])]) = .ok p ∧
      p.NextButton = true ∧ p.Page = 1 ∧
      navLink p 1 = ascii "/?count=-5&page=2&sort_by=date&sort_order=down" ∧
      ∃ req, parseSortConfig (linkQuery (navLink p 1)) = .ok req ∧
        currentPage req = .ok 1) ∧
    (∃ p, HomePage ⟨100, 3, fun _ => none, fun _ => ([], 5)⟩
        (mkValues [("count", ["1"]), ("page", ["2147483647"])]) = .ok p ∧
      p.NextButton = true ∧ p.Page = 2147483647 ∧
      navLink p 1 = ascii "/?count=1&page=2147483648&sort_by=date&sort_order=down" ∧
      ∃ req, parseSortConfig (linkQuery (navLink p 1)) = .ok req ∧
        currentPage req = .ok 2147483647) := by
  refine ⟨⟨⟨1, 5, [], 100, 3, true, false,
      ascii "/?count=-5&page=2&sort_by=date&sort_order=down", [],
      ⟨false, true, true, -5, 0⟩⟩, ?_, ?_, ?_, ?_, ⟨false, true, true, -5, 0⟩, ?_, ?_⟩,
    ⟨⟨2147483647, 5, [], 100, 3, true, true,
      ascii "/?count=1&page=2147483648&sort_by=date&sort_order=down",
      ascii "/?count=1&page=2147483646&sort_by=date&sort_order=down",
      ⟨false, true, true, 1, 2147483646⟩⟩, ?_, ?_, ?_, ?_,
      ⟨false, true, true, 1, 2147483646⟩, ?_, ?_⟩⟩
  · rfl
  · rfl
  · rfl
  · rfl
  · show parseSortConfig (linkQuery (ascii "/?count=-5&page=2&sort_by=date&sort_order=down"))
      = _
    rfl
  · rfl
  · rfl
  · rfl
  · rfl
  · rfl
  · show parseSortConfig
      (linkQuery (ascii "/?count=1&page=2147483648&sort_by=date&sort_order=down")) = _
    rfl
  · rfl

/-- C5, amended: for every `PageConfig` `HomePage` builds on the list path
with current page `N`, both links parse (with `parseSortConfig` on their
query) to a request with the same `Number`, `ByRating`, `ByDate` and
`Descending` as the originating request; if `PrevButton` is set the page
computed from the previous link is `N - 1`; and if `NextButton` is set,
`N < 2147483647` and either `Number > 0` or `N ≤ 0`, the page computed from
the next link is `N + 1`. -/
theorem navLink_round_trip (db : Backend) (params : Values) (p : PageConfig)
    (hwf : WellFormed params) (hid : params (ascii "id") = none)
    (h : HomePage db params = .ok p) :
    (∃ req, parseSortConfig (linkQuery (navLink p (-1))) = .ok req ∧
      req.Number = p.SortConfig.Number ∧ req.ByRating = p.SortConfig.ByRating ∧
      req.ByDate = p.SortConfig.ByDate ∧ req.Descending = p.SortConfig.Descending ∧
      (p.PrevButton = true → currentPage req = .ok (p.Page - 1))) ∧
    (∃ req, parseSortConfig (linkQuery (navLink p 1)) = .ok req ∧
      req.Number = p.SortConfig.Number ∧ req.ByRating = p.SortConfig.ByRating ∧
      req.ByDate = p.SortConfig.ByDate ∧ req.Descending = p.SortConfig.Descending ∧
      (p.NextButton = true → p.Page < 2147483647 →
        (0 < p.SortConfig.Number ∨ p.Page ≤ 0) → currentPage req = .ok (p.Page + 1))) := by
  obtain ⟨m, hm1, hm2, hN, hBD, hne, hP, hPrev⟩ := HomePage_list_ok hwf hid h
  have hn := numberOf_range params
  rw [← hN] at hn hne hP
  have hcases := page_cases m p.SortConfig.Number hne
  rw [← hP] at hcases
  constructor
  · by_cases hb : p.PrevButton = true
    swap
    · obtain ⟨o, L⟩ := parseSortConfig_linkQuery_fields p (-1) hn.1 hn.2
      exact ⟨_, L, rfl, rfl, hBD.symm, rfl, fun hb2 => absurd hb2 hb⟩
    rw [hPrev] at hb
    have hgt : p.Page > 1 := of_decide_eq_true hb
    have hm : 0 ≤ m * p.SortConfig.Number ∧ p.Page = m + 1 := by
      rcases hcases with h1 | h1
      · exact h1
      · omega
    have hcpos : 0 < p.SortConfig.Number := by
      by_contra hcn
      have : m * p.SortConfig.Number ≤ 0 := mul_nonpos_of_nonneg_of_nonpos (by omega) (by omega)
      have : m * p.SortConfig.Number = 0 := by omega
      rcases mul_eq_zero.mp this with h0 | h0 <;> omega
    have e : p.Page + -1 = p.Page - 1 := by ring
    have L := parseSortConfig_linkQuery p (-1) hn.1 hn.2 (by omega) (by omega)
    rw [e] at L
    refine ⟨_, L, rfl, rfl, hBD.symm, rfl, fun _ => ?_⟩
    exact currentPage_reparsed _ _ _ (p.Page - 1) hne (by omega) (by omega)
      (mul_nonneg (by omega) (by omega))
  · by_cases hq : p.Page < 2147483647
    · have hlo : -2147483648 ≤ p.Page := by
        rcases hcases with h1 | h1 <;> omega
      have L := parseSortConfig_linkQuery p 1 hn.1 hn.2 (by omega) (by omega)
      refine ⟨_, L, rfl, rfl, hBD.symm, rfl, ?_⟩
      intro _ _ hcond
      have hpos : 0 ≤ (p.Page + 1 - 1) * p.SortConfig.Number := by
        have e : p.Page + 1 - 1 = p.Page := by ring
        rw [e]
        rcases hcond with hc | hc
        · have hN1 : 1 ≤ p.Page := by
            rcases hcases with h1 | h1
            · have : 0 ≤ m := by
                by_contra hm
                have : m * p.SortConfig.Number ≤ -1 * p.SortConfig.Number := by
                  apply mul_le_mul_of_nonneg_right (by omega) (by omega)
                omega
              omega
            · omega
          exact mul_nonneg (by omega) (by omega)
        · have hcneg : p.SortConfig.Number < 0 := by
            rcases hcases with h1 | h1
            · by_contra hcn
              have h3 : m * p.SortConfig.Number ≤ 0 := mul_nonpos_of_nonpos_of_nonneg (by omega) (by omega)
              have h4 : m * p.SortConfig.Number = 0 := by omega
              rcases mul_eq_zero.mp h4 with h0 | h0 <;> omega
            · omega
          exact mul_nonneg_of_nonpos_of_nonpos hc (by omega)
      exact currentPage_reparsed _ _ _ (p.Page + 1) hne (by omega) (by omega) hpos
    · obtain ⟨o, L⟩ := parseSortConfig_linkQuery_fields p 1 hn.1 hn.2
      exact ⟨_, L, rfl, rfl, hBD.symm, rfl, fun _ hlt => absurd hlt hq⟩

theorem navLink_round_trip_witness :
    WellFormed (mkValues [("count", ["7"]), ("page", ["3"]), ("sort_by", ["rating"])]) ∧
    (mkValues [("count", ["7"]), ("page", ["3"]), ("sort_by", ["rating"])]) (ascii "id")
      = none ∧
    ∃ p, HomePage ⟨100, 3, fun _ => none, fun _ => ([], 5)⟩
        (mkValues [("count", ["7"]), ("page", ["3"]), ("sort_by", ["rating"])]) = .ok p ∧
      p.Page = 3 ∧ p.PrevButton = true ∧ p.NextButton = true ∧
      (∃ req, parseSortConfig (linkQuery (navLink p (-1))) = .ok req ∧
        req.Number = p.SortConfig.Number ∧ req.ByRating = p.SortConfig.ByRating ∧
        req.ByDate = p.SortConfig.ByDate ∧ req.Descending = p.SortConfig.Descending ∧
        (p.PrevButton = true → currentPage req = .ok (p.Page - 1))) ∧
      (∃ req, parseSortConfig (linkQuery (navLink p 1)) = .ok req ∧
        req.Number = p.SortConfig.Number ∧ req.ByRating = p.SortConfig.ByRating ∧
        req.ByDate = p.SortConfig.ByDate ∧ req.Descending = p.SortConfig.Descending ∧
        (p.NextButton = true → p.Page < 2147483647 →
          (0 < p.SortConfig.Number ∨ p.Page ≤ 0) → currentPage req = .ok (p.Page + 1))) := by
  refine ⟨mkValues_wellFormed _ (by decide), ?_, ⟨3, 5, [], 100, 3, true, true,
      ascii "/?count=7&page=4&sort_by=rating&sort_order=down",
      ascii "/?count=7&page=2&sort_by=rating&sort_order=down",
      ⟨true, false, true, 7, 14⟩⟩, ?_, ?_, ?_, ?_, ?_⟩
  · rfl
  · rfl
  · rfl
  · rfl
  · rfl
  · exact navLink_round_trip ⟨100, 3, fun _ => none, fun _ => ([], 5)⟩
      (mkValues [("count", ["7"]), ("page", ["3"]), ("sort_by", ["rating"])]) _
      (mkValues_wellFormed _ (by decide)) (by rfl) (by rfl)

end NoobFarm
